import Mathlib

/-!
# Chainsaw: verification of the spec against the source

Shallow embedding of the parts of the `chainsaw` code base (Go) that the
frozen claims C1..C10 are about, together with theorems settling each claim.

Conventions used throughout:

* Go slices become `List`, Go `string` becomes `String`, machine integers
  become `Int`/`Nat` (no overflow is relevant to any claim: all counters
  stay tiny), and fallible Go functions returning `(T, error)` become
  `Except String T` (or `Option`).
* External library calls that the claims do not depend on (Go's `regexp`
  matching, `encoding/json` unmarshalling, SQLite's `LIKE`, the sqlite-vec
  cosine distance) are passed in as function parameters, so every theorem
  quantifies over their behaviour.
* SQL statements executed against the store are embedded as pure functions
  over an explicit table state, following the SQL text in the source.
-/

namespace Chainsaw

/-! ## File filter (`pkg/filter/filter.go`) — claim C7

`ShouldIndexFile` normalizes the path with `filepath.Abs` and then runs two
regex loops.  The embedding takes the already-normalized absolute path and
models `regexp.MatchString pattern path` as the oracle `matchString`:
`none` stands for a pattern whose compilation fails (the Go code skips such
patterns with `continue`), `some b` for a successful match test.
-/

namespace Filter

/-- Embedding of `ShouldIndexFile` (`pkg/filter/filter.go`): the first
blacklist loop breaks at the first pattern that matches (`find?`); if no
blacklist pattern matched the file is admitted; otherwise the whitelist
loop admits at the first whitelist match and the fall-through rejects. -/
def ShouldIndexFile (matchString : String → String → Option Bool)
    (absPath : String) (blacklist whitelist : List String) : Bool :=
  match blacklist.find? (fun pattern => matchString pattern absPath == some true) with
  | none => true
  | some _ =>
      whitelist.any (fun pattern => matchString pattern absPath == some true)

end Filter

/-- C7: for every absolute path `P`, blacklist `B` and whitelist `W`, the
filter admits `P` iff `P` matches no pattern of `B` or matches some pattern
of `W`; in particular an empty blacklist admits every path, and a path
matching both a blacklist pattern and a whitelist pattern is admitted. -/
theorem C7_shouldIndexFile_admits_iff
    (m : String → String → Option Bool) (P : String) (B W : List String) :
    (Filter.ShouldIndexFile m P B W = true ↔
      (∀ b ∈ B, m b P ≠ some true) ∨ (∃ w ∈ W, m w P = some true)) ∧
    Filter.ShouldIndexFile m P [] W = true ∧
    (∀ b ∈ B, m b P = some true →
      ∀ w ∈ W, m w P = some true → Filter.ShouldIndexFile m P B W = true) := by
  refine ⟨?_, rfl, ?_⟩
  · unfold Filter.ShouldIndexFile
    cases hf : B.find? (fun pattern => m pattern P == some true) with
    | none =>
        rw [List.find?_eq_none] at hf
        simp only [true_iff]
        exact Or.inl (fun b hb => by simpa using hf b hb)
    | some p =>
        have hp : m p P = some true := by
          simpa using List.find?_some hf
        have hmem : p ∈ B := List.mem_of_find?_eq_some hf
        constructor
        · intro hany
          exact Or.inr (by simpa [List.any_eq_true] using hany)
        · intro hor
          rcases hor with hno | ⟨w, hw, hmw⟩
          · exact absurd hp (hno p hmem)
          · simp only [List.any_eq_true]
            exact ⟨w, hw, by simp [hmw]⟩
  · intro b hb hbm w hw hwm
    unfold Filter.ShouldIndexFile
    cases hf : B.find? (fun pattern => m pattern P == some true) with
    | none =>
        rfl
    | some p =>
        simp only [List.any_eq_true]
        exact ⟨w, hw, by simp [hwm]⟩

/-- Witness for C7 at a concrete input: a matcher that tests the pattern for
literal equality with the path, a path matching both the blacklist and the
whitelist — the filter admits it. -/
theorem C7_shouldIndexFile_admits_iff_witness :
    Filter.ShouldIndexFile
      (fun pattern path => some (pattern == path))
      "/home/user/project/important.secret"
      ["/home/user/project/important.secret"]
      ["/home/user/project/important.secret"] = true :=
  (C7_shouldIndexFile_admits_iff
      (fun pattern path => some (pattern == path))
      "/home/user/project/important.secret"
      ["/home/user/project/important.secret"]
      ["/home/user/project/important.secret"]).2.2
    "/home/user/project/important.secret" (by decide) (by decide)
    "/home/user/project/important.secret" (by decide) (by decide)

/-! ## Work queue and embedding worker (`pkg/db/files.go`, `pkg/worker/indexer.go`)
— claim C2

The file row (`files` table) and the status transitions that the worker and
the queue operations perform on it.  Only the columns the claim is about are
modelled.  Each `Mark*` definition follows the `UPDATE`/upsert statement of
the corresponding Go method.
-/

namespace Worker

/-- A row of the `files` table (the columns relevant to the work queue). -/
structure FileRow where
  path : String
  lastModTime : Int
  contentHash : String
  status : String
  errorMessage : Option String
  retryCount : Nat
deriving Repr, DecidableEq

/-- Embedding of `MarkFilePending` (`pkg/db/files.go`): upsert with
`status = 'pending'`, the incoming mod-time and hash, `retry_count = 0`
and `error_message = NULL`. -/
def MarkFilePending (row : FileRow) (modTime : Int) (contentHash : String) : FileRow :=
  { row with
      lastModTime := modTime
      contentHash := contentHash
      status := "pending"
      retryCount := 0
      errorMessage := none }

/-- Embedding of `MarkFileProcessing` (`pkg/db/files.go`): sets only the status. -/
def MarkFileProcessing (row : FileRow) : FileRow :=
  { row with status := "processing" }

/-- Embedding of `MarkFileIndexed` (`pkg/db/files.go`): status `indexed`,
error cleared, retry counter reset. -/
def MarkFileIndexed (row : FileRow) : FileRow :=
  { row with status := "indexed", errorMessage := none, retryCount := 0 }

/-- Embedding of `MarkFileFailed` (`pkg/db/files.go`): status `failed`,
error message and the given retry count recorded. -/
def MarkFileFailed (row : FileRow) (errorMsg : String) (retryCount : Nat) : FileRow :=
  { row with status := "failed", errorMessage := some errorMsg, retryCount := retryCount }

/-- Embedding of `handleFailure` (`pkg/worker/indexer.go`):
`retryCount := file.RetryCount + 1`; at `retryCount >= maxRetries` the row is
marked failed with that count, otherwise it is re-queued via
`MarkFilePending` with the row's own mod-time and hash. -/
def handleFailure (maxRetries : Nat) (row : FileRow) (indexErr : String) : FileRow :=
  let retryCount := row.retryCount + 1
  if retryCount ≥ maxRetries then
    MarkFileFailed row indexErr retryCount
  else
    MarkFilePending row row.lastModTime row.contentHash

/-- One failing pass of `processFile` (`pkg/worker/indexer.go`) over a row the
worker drained from the pending queue: mark it processing, the indexing
attempt fails with `indexErr`, then `handleFailure`. -/
def failingAttempt (maxRetries : Nat) (indexErr : String) (row : FileRow) : FileRow :=
  handleFailure maxRetries (MarkFileProcessing row) indexErr

/-- A freshly admitted file row, as produced by `MarkFilePending` on first
queueing. -/
def freshRow : FileRow :=
  { path := "/home/user/project/main.go"
    lastModTime := 100
    contentHash := "aa11"
    status := "pending"
    errorMessage := none
    retryCount := 0 }

end Worker

/-- C2 (the code contradicts the claim): with the default maximum of 3
retries, a file that fails on every attempt is re-queued with
`retry_count` reset to 0 each time (because `MarkFilePending` writes
`retry_count = 0`), so after any number of failing attempts the row is
still `pending` with retry count 0 — it never reaches status `failed`
and its retry counter never reaches the maximum. -/
theorem C2_failing_file_never_marked_failed :
    ∀ n : Nat,
      ((Worker.failingAttempt 3 "provider exploded")^[n] Worker.freshRow).status
          = "pending" ∧
      ((Worker.failingAttempt 3 "provider exploded")^[n] Worker.freshRow).retryCount
          = 0 := by
  intro n
  induction n with
  | zero => exact ⟨rfl, rfl⟩
  | succ n ih =>
      rw [Function.iterate_succ_apply']
      rcases ih with ⟨-, hretry⟩
      set r := (Worker.failingAttempt 3 "provider exploded")^[n] Worker.freshRow with hr
      simp only [Worker.failingAttempt, Worker.handleFailure, Worker.MarkFileProcessing,
        Worker.MarkFilePending, Worker.MarkFileFailed, hretry]
      norm_num

/-! ## Cypher transpiler (`pkg/cypher/ast/ast.go`, `pkg/cypher/transpile.go`)
— claim C1

The AST structures follow `ast.go` (the Go field `Variable` is spelled
`var_` because `variable` is a Lean keyword; `Match` is spelled
`matchClause` for the same reason).  `generateSingleHopSQL` follows the SQL
generator line by line; the bind-argument list (`[]interface{}` holding
strings) becomes `List String`.
-/

namespace Cypher

structure Node where
  var_ : String
  label : String
deriving Repr, DecidableEq

structure Edge where
  type : String
  direction : String
  minHops : Int
  maxHops : Int
deriving Repr, DecidableEq

structure AggregateFunction where
  function : String
  var_ : String
  property : String
deriving Repr, DecidableEq

structure ReturnItem where
  var_ : String
  property : String
  aggregate : Option AggregateFunction
  alias_ : String
deriving Repr, DecidableEq

structure GroupByItem where
  var_ : String
  property : String
deriving Repr, DecidableEq

structure OrderByItem where
  expression : String
  ascending : Bool
deriving Repr, DecidableEq

structure PathPattern where
  sourceNode : Node
  edge : Edge
  targetNode : Node
deriving Repr, DecidableEq

structure MatchClause where
  pattern : PathPattern
deriving Repr, DecidableEq

structure ReturnClause where
  items : List ReturnItem
deriving Repr, DecidableEq

structure GroupByClause where
  items : List GroupByItem
deriving Repr, DecidableEq

structure OrderByClause where
  items : List OrderByItem
deriving Repr, DecidableEq

structure LimitClause where
  count : Int
deriving Repr, DecidableEq

structure Query where
  matchClause : MatchClause
  returnClause : ReturnClause
  groupBy : Option GroupByClause
  orderBy : Option OrderByClause
  limit : Option LimitClause
deriving Repr, DecidableEq

/-- Options for transpiling (`TranspileOptions` in `transpile.go`):
`CWD` non-empty requests path filtering. -/
structure TranspileOptions where
  cwd : String
deriving Repr, DecidableEq

/-- `TranspileResult`: the generated SQL and the bind parameters in emission
order. -/
structure TranspileResult where
  sql : String
  args : List String
deriving Repr, DecidableEq

/-- The SELECT-item loop of `generateSingleHopSQL`: one item per RETURN item,
with the aggregate branch first, the `e1`/`e2` variable resolution, the
`snippet`/`file`/`lines` magic properties, the skip of empty non-aggregate
variables, and the distinct error messages of the source. -/
def buildSelectItems (e1Var e2Var : String) : List ReturnItem → Except String (List String)
  | [] => .ok []
  | item :: rest =>
    match item.aggregate with
    | some agg =>
        ((if agg.var_ == e1Var then .ok "e1"
         else if agg.var_ == e2Var then .ok "e2"
         else .error ("unknown variable in aggregate: " ++ agg.var_)) :
         Except String String).bind fun tableAlias =>
        ((match agg.function with
         | "COUNT" => .ok ("COUNT(DISTINCT " ++ tableAlias ++ ".id)")
         | "SUM" => .error "aggregate function SUM not yet supported"
         | "AVG" => .error "aggregate function AVG not yet supported"
         | "MIN" => .error "aggregate function MIN not yet supported"
         | "MAX" => .error "aggregate function MAX not yet supported"
         | f => .error ("unknown aggregate function: " ++ f)) :
         Except String String).bind fun aggExpr =>
        let aggExpr := if item.alias_ ≠ "" then aggExpr ++ " AS " ++ item.alias_ else aggExpr
        (buildSelectItems e1Var e2Var rest).map fun tl => aggExpr :: tl
    | none =>
        if item.var_ == e1Var ∨ item.var_ == e2Var then
          let tableAlias := if item.var_ == e1Var then "e1" else "e2"
          let n := tableAlias.drop 1
          let colExpr :=
            if item.property ≠ "" then
              if item.property = "snippet" then
                "c" ++ n ++ ".content_snippet AS " ++ item.var_ ++ "_snippet"
              else if item.property = "file" then
                "f" ++ n ++ ".path AS " ++ item.var_ ++ "_file"
              else if item.property = "lines" then
                "(c" ++ n ++ ".start_line || '-' || c" ++ n ++ ".end_line) AS "
                  ++ item.var_ ++ "_lines"
              else
                tableAlias ++ "." ++ item.property ++ " AS "
                  ++ item.var_ ++ "_" ++ item.property
            else
              tableAlias ++ ".*"
          (buildSelectItems e1Var e2Var rest).map fun tl => colExpr :: tl
        else if item.var_ == "" then
          buildSelectItems e1Var e2Var rest
        else
          .error ("unknown variable in RETURN: " ++ item.var_)

/-- The GROUP BY item loop of `generateSingleHopSQL`. -/
def buildGroupByItems (e1Var e2Var : String) : List GroupByItem → Except String (List String)
  | [] => .ok []
  | item :: rest =>
    ((if item.var_ == e1Var then .ok "e1"
     else if item.var_ == e2Var then .ok "e2"
     else .error ("unknown variable in GROUP BY: " ++ item.var_)) :
     Except String String).bind fun tableAlias =>
    (buildGroupByItems e1Var e2Var rest).map fun tl =>
      (tableAlias ++ "." ++ item.property) :: tl

/-- The ORDER BY item loop of `generateSingleHopSQL` (cannot fail). -/
def buildOrderByItems (items : List OrderByItem) : List String :=
  items.map fun item =>
    item.expression ++ " " ++ (if item.ascending then "ASC" else "DESC")

/-- Embedding of `generateSingleHopSQL` (`pkg/cypher/transpile.go`): direction
binding, SELECT, the fixed FROM/JOIN block, the WHERE conjunction built from
the source label / edge type / target label filters, GROUP BY, ORDER BY and
LIMIT.  Note the `opts` parameter: exactly as in the source, it is never
consulted. -/
def generateSingleHopSQL (q : Query) (opts : TranspileOptions) :
    Except String TranspileResult :=
  let pattern := q.matchClause.pattern
  let sourceNode := pattern.sourceNode
  let edge := pattern.edge
  let targetNode := pattern.targetNode
  ((if edge.direction == "->" then
     .ok (sourceNode.var_, sourceNode.label, targetNode.var_, targetNode.label)
   else if edge.direction == "<-" then
     .ok (targetNode.var_, targetNode.label, sourceNode.var_, sourceNode.label)
   else
     .error "undirected edges not yet supported") :
   Except String (String × String × String × String)).bind
  fun (e1Var, e1Label, e2Var, e2Label) =>
  (buildSelectItems e1Var e2Var q.returnClause.items).bind fun selectItems =>
  let sql := "SELECT " ++ String.intercalate ", " selectItems
  let sql := sql ++ "\nFROM entities e1"
  let sql := sql ++ "\nJOIN graph_edges g ON g.source_entity_id = e1.id"
  let sql := sql ++ "\nJOIN entities e2 ON g.target_entity_id = e2.id"
  let sql := sql ++ "\nLEFT JOIN vec_chunks c1 ON e1.chunk_id = c1.chunk_id"
  let sql := sql ++ "\nLEFT JOIN files f1 ON c1.file_id = f1.id"
  let sql := sql ++ "\nLEFT JOIN vec_chunks c2 ON e2.chunk_id = c2.chunk_id"
  let sql := sql ++ "\nLEFT JOIN files f2 ON c2.file_id = f2.id"
  let whereConditions : List String :=
    (if e1Label ≠ "" then ["e1.entity_type = ?"] else []) ++
    (if edge.type ≠ "" then ["g.relation_type = ?"] else []) ++
    (if e2Label ≠ "" then ["e2.entity_type = ?"] else [])
  let args : List String :=
    (if e1Label ≠ "" then [e1Label] else []) ++
    (if edge.type ≠ "" then [edge.type] else []) ++
    (if e2Label ≠ "" then [e2Label] else [])
  let sql :=
    if whereConditions.length > 0 then
      sql ++ "\nWHERE " ++ String.intercalate "\n  AND " whereConditions
    else sql
  ((match q.groupBy with
   | none => .ok sql
   | some gb =>
       (buildGroupByItems e1Var e2Var gb.items).map fun groupItems =>
         sql ++ "\nGROUP BY " ++ String.intercalate ", " groupItems) :
   Except String String).bind
  fun sql =>
  let sql :=
    match q.orderBy with
    | none => sql
    | some ob => sql ++ "\nORDER BY " ++ String.intercalate ", " (buildOrderByItems ob.items)
  let sql :=
    match q.limit with
    | none => sql
    | some lim => sql ++ "\nLIMIT " ++ toString lim.count
  .ok { sql := sql, args := args }

/-- The query of the repository's own test `TestTranspileWithCWD`
(`pkg/cypher/transpile_test.go`): `MATCH (f:FUNCTION)-[:calls]->(t)
RETURN f.name, t.name`, as the AST the parser produces for it. -/
def cwdTestQuery : Query :=
  { matchClause :=
      { pattern :=
          { sourceNode := { var_ := "f", label := "FUNCTION" }
            edge := { type := "calls", direction := "->", minHops := 0, maxHops := 0 }
            targetNode := { var_ := "t", label := "" } } }
    returnClause :=
      { items :=
          [ { var_ := "f", property := "name", aggregate := none, alias_ := "" },
            { var_ := "t", property := "name", aggregate := none, alias_ := "" } ] }
    groupBy := none
    orderBy := none
    limit := none }

end Cypher

set_option maxRecDepth 8000 in
/-- C1 (the code contradicts the claim and the repository's own
`TestTranspileWithCWD`): the single-hop generator never reads the CWD
option — its output is identical for every pair of option values — and on
the test's own query with the non-empty CWD `/home/user/project/pkg/db`
the generated WHERE clause starts directly with `e1.entity_type = ?` (no
`(f1.path LIKE ? OR f2.path LIKE ?)` conjunct) and the argument list is
exactly `["FUNCTION", "calls"]`, without the prefix pattern bound twice in
front. -/
theorem C1_singleHop_ignores_cwd :
    (∀ (q : Cypher.Query) (o₁ o₂ : Cypher.TranspileOptions),
        Cypher.generateSingleHopSQL q o₁ = Cypher.generateSingleHopSQL q o₂) ∧
    Cypher.generateSingleHopSQL Cypher.cwdTestQuery { cwd := "/home/user/project/pkg/db" }
      = .ok
          { sql := "SELECT e1.name AS f_name, e2.name AS t_name\nFROM entities e1\nJOIN graph_edges g ON g.source_entity_id = e1.id\nJOIN entities e2 ON g.target_entity_id = e2.id\nLEFT JOIN vec_chunks c1 ON e1.chunk_id = c1.chunk_id\nLEFT JOIN files f1 ON c1.file_id = f1.id\nLEFT JOIN vec_chunks c2 ON e2.chunk_id = c2.chunk_id\nLEFT JOIN files f2 ON c2.file_id = f2.id\nWHERE e1.entity_type = ?\n  AND g.relation_type = ?"
            args := ["FUNCTION", "calls"] } :=
  ⟨fun _ _ _ => rfl, rfl⟩

/-! ## Chunker and embedding pipeline (`pkg/indexer/indexer.go`,
`pkg/indexer/types.go`) — claims C4 and C3

Go operates on the `[]byte` view of the content; every byte the chunker ever
compares against is the ASCII newline, so content is modelled as `List Char`
with `'\n'` as the newline.  Configuration fields are Go `int`s that are
non-negative in every valid configuration, modelled as `Nat` (then Go's
`stride <= 0` is exactly `stride = 0` here).  The `for` loop of
`chunkContent` is written with an explicit fuel parameter; the invariant
theorems quantify over every fuel value, and `chunkContent` passes
`content.length + 1`, which is enough for every configuration with a
positive chunk size (the loop advances its offset by at least one per
iteration).
-/

namespace Indexer

/-- The `indexer.Config` fields the chunker and `IndexFile` consult
(`pkg/indexer/types.go`). -/
structure Config where
  chunkSize : Nat
  chunkOverlap : Nat
  batchSize : Nat
  minChunkSize : Nat
  maxChunkSize : Nat
deriving Repr, DecidableEq

/-- `DefaultConfig` (`pkg/indexer/types.go`): chunk size 512, overlap 64,
embedding batch size 20, minimum 10, maximum 4096. -/
def DefaultConfig : Config :=
  { chunkSize := 512, chunkOverlap := 64, batchSize := 20
    minChunkSize := 10, maxChunkSize := 4096 }

/-- A produced chunk (`indexer.Chunk`, `pkg/indexer/types.go`). -/
structure Chunk where
  fileID : Int
  filePath : String
  content : List Char
  startOffset : Nat
  endOffset : Nat
  startLine : Nat
  endLine : Nat
deriving Repr, DecidableEq

/-- Embedding of `countLines` (`pkg/indexer/indexer.go`): the number of
newline bytes in the data. -/
def countLines (data : List Char) : Nat :=
  data.count '\n'

/-- The forward half of the start-of-line alignment: Go's
`for offset < contentLen && contentBytes[offset] != '\n' { offset++ }`. -/
def scanForwardToNewline (content : List Char) (offset : Nat) : Nat :=
  if h : offset < content.length then
    if content.get ⟨offset, h⟩ = '\n' then offset
    else scanForwardToNewline content (offset + 1)
  else offset
termination_by content.length - offset
decreasing_by omega

/-- Start-of-line alignment for a non-zero offset: scan forward to the next
newline, then step past it when still in bounds. -/
def alignStart (content : List Char) (offset : Nat) : Nat :=
  let o := scanForwardToNewline content offset
  if o < content.length then o + 1 else o

/-- End-of-line alignment: Go's
`for end > offset && contentBytes[end-1] != '\n' { end-- }`.  The `get?`
miss case cannot occur for `e ≤ content.length` and returns `e` unchanged. -/
def scanBackToNewline (content : List Char) (offset : Nat) (e : Nat) : Nat :=
  if h : offset < e then
    match content.get? (e - 1) with
    | some c => if c = '\n' then e else scanBackToNewline content offset (e - 1)
    | none => e
  else e
termination_by e
decreasing_by omega

/-- The window end of one loop iteration: `end := min(offset+ChunkSize,
contentLen)` followed by the max-chunk-size cap
`if end-offset > MaxChunkSize { end = offset + MaxChunkSize }`. -/
def windowEnd (cfg : Config) (content : List Char) (offset : Nat) : Nat :=
  let end0 := min (offset + cfg.chunkSize) content.length
  if end0 - offset > cfg.maxChunkSize then offset + cfg.maxChunkSize else end0

/-- The start alignment of one loop iteration (a no-op at offset 0). -/
def alignedStart (content : List Char) (offset : Nat) : Nat :=
  if offset > 0 then alignStart content offset else offset

/-- The end alignment of one loop iteration (a no-op when the window already
reaches the end of content). -/
def alignedEnd (content : List Char) (offset1 e : Nat) : Nat :=
  if e < content.length then scanBackToNewline content offset1 e else e

/-- The sliding-window loop of `chunkContent` (`pkg/indexer/indexer.go`),
with the loop-carried `offset` and an explicit fuel.  One iteration: window
end (capped by the max chunk size), start alignment when `offset > 0`, end
alignment when the window does not reach the end of content, the too-small
skip (`offset += min(stride, 100)`), the minimum-size filter on the emitted
chunk, `offset += stride`, and the `end >= contentLen` break. -/
def chunkLoop (cfg : Config) (content : List Char) (fileID : Int) (filePath : String)
    (stride : Nat) : Nat → Nat → List Chunk
  | 0, _ => []
  | fuel + 1, offset =>
    if offset < content.length then
      let offset1 := alignedStart content offset
      let end2 := alignedEnd content offset1 (windowEnd cfg content offset)
      if end2 ≤ offset1 then
        chunkLoop cfg content fileID filePath stride fuel (offset1 + min stride 100)
      else
        let chunkBytes := (content.drop offset1).take (end2 - offset1)
        let rest :=
          if end2 ≥ content.length then []
          else chunkLoop cfg content fileID filePath stride fuel (offset1 + stride)
        if chunkBytes.length ≥ cfg.minChunkSize then
          { fileID := fileID, filePath := filePath, content := chunkBytes
            startOffset := offset1, endOffset := end2
            startLine := countLines (content.take offset1) + 1
            endLine := countLines (content.take end2) } :: rest
        else rest
    else []

/-- Embedding of `chunkContent` (`pkg/indexer/indexer.go`): empty result
below the minimum size, a single whole-content chunk up to the chunk size,
otherwise the sliding-window loop with stride `chunkSize - chunkOverlap`
(replaced by `chunkSize` when that is not positive). -/
def chunkContent (cfg : Config) (content : List Char) (fileID : Int)
    (filePath : String) : List Chunk :=
  let contentLen := content.length
  if contentLen < cfg.minChunkSize then []
  else if contentLen ≤ cfg.chunkSize then
    [{ fileID := fileID, filePath := filePath, content := content
       startOffset := 0, endOffset := contentLen
       startLine := 1, endLine := countLines content }]
  else
    let stride0 := cfg.chunkSize - cfg.chunkOverlap
    let stride := if stride0 = 0 then cfg.chunkSize else stride0
    chunkLoop cfg content fileID filePath stride (contentLen + 1) 0

/-- The invariant every chunk emitted by the chunker satisfies: at least the
configured minimum size, recorded offsets within the content with the chunk
text being exactly the slice between them, and the line numbers computed as
`countLines(content[:offset])+1` / `countLines(content[:end])`. -/
def ChunkInv (cfg : Config) (content : List Char) (c : Chunk) : Prop :=
  cfg.minChunkSize ≤ c.content.length ∧
  c.startOffset ≤ c.endOffset ∧
  c.endOffset ≤ content.length ∧
  c.content = (content.drop c.startOffset).take (c.endOffset - c.startOffset) ∧
  c.startLine = countLines (content.take c.startOffset) + 1 ∧
  c.endLine = countLines (content.take c.endOffset)

theorem scanBackToNewline_le (content : List Char) (offset : Nat) :
    ∀ e, scanBackToNewline content offset e ≤ e := by
  intro e
  induction e using Nat.strong_induction_on with
  | _ e ih =>
    rw [scanBackToNewline]
    split
    · split
      · split
        · exact Nat.le_refl _
        · next h _ _ => exact Nat.le_trans (ih (e - 1) (by omega)) (by omega)
      · exact Nat.le_refl _
    · exact Nat.le_refl _

theorem windowEnd_le_length (cfg : Config) (content : List Char) (offset : Nat) :
    windowEnd cfg content offset ≤ content.length := by
  simp only [windowEnd]
  split <;> omega

theorem alignedEnd_le_length (content : List Char) (offset1 e : Nat)
    (he : e ≤ content.length) : alignedEnd content offset1 e ≤ content.length := by
  unfold alignedEnd
  split
  · exact Nat.le_trans (scanBackToNewline_le content offset1 e) he
  · exact he

theorem countLines_take_add (content : List Char) (a b : Nat) (hab : a ≤ b) :
    countLines (content.take b) =
      countLines (content.take a) + countLines ((content.drop a).take (b - a)) := by
  have hsplit : content.take b = content.take a ++ (content.drop a).take (b - a) := by
    conv_lhs => rw [show b = a + (b - a) by omega]
    rw [List.take_add]
  rw [hsplit]
  unfold countLines
  exact List.count_append _ _ _

theorem chunkLoop_inv (cfg : Config) (content : List Char) (fileID : Int)
    (filePath : String) (stride : Nat) :
    ∀ fuel offset, ∀ c ∈ chunkLoop cfg content fileID filePath stride fuel offset,
      ChunkInv cfg content c := by
  intro fuel
  induction fuel with
  | zero =>
      intro offset c hc
      simp [chunkLoop] at hc
  | succ fuel ih =>
      intro offset c hc
      simp only [chunkLoop] at hc
      split at hc
      · split at hc
        · exact ih _ c hc
        · next hlt =>
            split at hc
            · next hmin =>
                rcases List.mem_cons.mp hc with hhead | htail
                · subst hhead
                  refine ⟨hmin, ?_, ?_, rfl, rfl, rfl⟩
                  · dsimp only
                    omega
                  · dsimp only
                    exact alignedEnd_le_length content _ _
                      (windowEnd_le_length cfg content offset)
                · split at htail
                  · simp at htail
                  · exact ih _ c htail
            · split at hc
              · simp at hc
              · exact ih _ c hc
      · simp at hc

end Indexer

/-- C4 (amended): for every chunk produced by the chunker from any content
and any configuration, the chunk's length is at least the configured
minimum, its offsets delimit exactly its text inside the content,
`start_line = 1 + newlines(content[:start])` (so `start_line` is 1-based)
and `end_line = newlines(content[:end])`; `start_line ≤ end_line` holds iff
the chunk's text contains a newline — a chunk with no newline (possible
only when the chunk runs to the end of a content that does not end in a
newline) instead has `end_line = start_line - 1`. -/
theorem C4_chunk_invariants_amended (cfg : Indexer.Config) (content : List Char)
    (fileID : Int) (filePath : String) :
    ∀ c ∈ Indexer.chunkContent cfg content fileID filePath,
      cfg.minChunkSize ≤ c.content.length ∧
      c.content = (content.drop c.startOffset).take (c.endOffset - c.startOffset) ∧
      c.startOffset ≤ c.endOffset ∧
      c.endOffset ≤ content.length ∧
      c.startLine = Indexer.countLines (content.take c.startOffset) + 1 ∧
      c.endLine = Indexer.countLines (content.take c.endOffset) ∧
      1 ≤ c.startLine ∧
      c.endLine + 1 = c.startLine + Indexer.countLines c.content ∧
      (c.startLine ≤ c.endLine ↔ '\n' ∈ c.content) := by
  intro c hc
  have hinv : Indexer.ChunkInv cfg content c := by
    simp only [Indexer.chunkContent] at hc
    split at hc
    · simp at hc
    · split at hc
      · next hmin hsize =>
          rcases List.mem_singleton.mp hc with rfl
          refine ⟨?_, ?_, ?_, ?_, ?_, ?_⟩ <;> dsimp only
          · omega
          · omega
          · exact Nat.le_refl _
          · simp
          · simp [Indexer.countLines]
          · simp
      · exact Indexer.chunkLoop_inv cfg content fileID filePath _ _ _ c hc
  obtain ⟨h1, h2, h3, h4, h5, h6⟩ := hinv
  have hcount : Indexer.countLines (content.take c.endOffset) =
      Indexer.countLines (content.take c.startOffset) + Indexer.countLines c.content := by
    rw [Indexer.countLines_take_add content c.startOffset c.endOffset h2, h4]
  have hmem : '\n' ∈ c.content ↔ 1 ≤ Indexer.countLines c.content := by
    unfold Indexer.countLines
    constructor
    · intro h
      exact List.count_pos_iff.mpr h
    · intro h
      exact List.count_pos_iff.mp h
  refine ⟨h1, h4, h2, h3, h5, h6, by omega, by omega, ?_⟩
  rw [hmem]
  omega

/-- Witness for C4 at a concrete input: the single chunk of
`"hello\nworld\n"` under the default configuration. -/
theorem C4_chunk_invariants_amended_witness :
    Indexer.DefaultConfig.minChunkSize ≤ "hello\nworld\n".toList.length ∧
    (1 : Nat) ≤ 1 ∧
    ((1 : Nat) ≤ 2 ↔ '\n' ∈ "hello\nworld\n".toList) := by
  have h := C4_chunk_invariants_amended Indexer.DefaultConfig "hello\nworld\n".toList 1 "/tmp/a.txt"
      { fileID := 1, filePath := "/tmp/a.txt", content := "hello\nworld\n".toList
        startOffset := 0, endOffset := 12, startLine := 1, endLine := 2 }
      (by decide)
  exact ⟨h.1, h.2.2.2.2.2.2.1, h.2.2.2.2.2.2.2.2⟩

/-- C4 (counterexample to the claim as stated): under the default
configuration, the 10-byte content `abcdefghij` (no newline at all)
produces exactly one chunk, and that chunk has `start_line = 1` but
`end_line = 0`, violating the claimed `start_line ≤ end_line` (and the
claim that `end_line` is 1-based). -/
theorem C4_counterexample :
    ∃ c ∈ Indexer.chunkContent Indexer.DefaultConfig "abcdefghij".toList 1 "/tmp/a.txt",
      ¬(c.startLine ≤ c.endLine) := by decide

/-! ## `IndexFile` as an operation trace — claim C3

`IndexFile` (`pkg/indexer/indexer.go`) performs a fixed sequence of store
and provider operations.  The embedding records that sequence: `isBinary`
abstracts the `http.DetectContentType` sniff of the first 512 bytes,
`fileID` is the id the `UpsertFile` upsert returns, and `modTime`/`hash`
abstract the stat mod-time and the SHA-256 digest of the content.  Note
what the function does **not** receive: any previously stored digest.  No
branch of the source compares the computed hash against a stored one
(`HasFileChanged` exists in `pkg/db/files.go` but has no caller in the
pipeline), so two calls on an unchanged file perform identical traces.
-/

namespace Indexer

/-- One observable operation of `IndexFile` against the store or the
embedding provider. -/
inductive Op where
  | upsertFile (path : String) (modTime : Int) (hash : String)
  | deleteChunksForFile (fileID : Int)
  | embed (texts : List String)
  | insertChunk (fileID : Int) (content : List Char) (startLine endLine : Nat)
deriving Repr, DecidableEq

/-- The operations of `processBatch` (`pkg/indexer/indexer.go`): one `Embed`
provider call on the batch's texts, then one `InsertChunk` per chunk of the
batch. -/
def processBatchOps (batch : List Chunk) : List Op :=
  Op.embed (batch.map fun c => String.mk c.content) ::
    batch.map fun c => Op.insertChunk c.fileID c.content c.startLine c.endLine

/-- Go's batching loop `for i := 0; i < len(chunks); i += BatchSize` with
`batch := chunks[i:min(i+BatchSize, len)]`, fuelled like `chunkLoop` (the
batch size is positive in every valid configuration, default 20). -/
def splitBatches (batchSize : Nat) : Nat → List α → List (List α)
  | 0, _ => []
  | _, [] => []
  | fuel + 1, chunks =>
      chunks.take batchSize :: splitBatches batchSize fuel (chunks.drop batchSize)

/-- Embedding of `IndexFile` (`pkg/indexer/indexer.go`) as its operation
trace: skip binary files; otherwise upsert the file row, delete every
existing chunk of the file, chunk the content, and (unless no chunks were
produced) run `processBatch` on each batch of the configured size. -/
def IndexFileOps (cfg : Config) (isBinary : Bool) (path : String) (fileID : Int)
    (modTime : Int) (hash : String) (content : List Char) : List Op :=
  if isBinary then []
  else
    let chunks := chunkContent cfg content fileID path
    Op.upsertFile path modTime hash ::
    Op.deleteChunksForFile fileID ::
    (if chunks = [] then []
     else (splitBatches cfg.batchSize (chunks.length + 1) chunks).flatMap processBatchOps)

end Indexer

/-- C3 (the code contradicts the claim): indexing the 12-byte file
`hello\nworld\n` performs — for *every* stored digest and mod-time, in
particular unchanged ones — an unconditional trace that deletes the file's
chunks, calls the embedding provider once and re-inserts the chunk.  The
trace does not depend on any stored state, so the second `index` call on an
unchanged file repeats it verbatim, where the claim requires the second
call to insert nothing, delete nothing and make no provider call. -/
theorem C3_unchanged_file_still_reindexed (hash : String) (modTime : Int) :
    Indexer.IndexFileOps Indexer.DefaultConfig false "/p/a.go" 1 modTime hash
        "hello\nworld\n".toList
      = [Indexer.Op.upsertFile "/p/a.go" modTime hash,
         Indexer.Op.deleteChunksForFile 1,
         Indexer.Op.embed [String.mk "hello\nworld\n".toList],
         Indexer.Op.insertChunk 1 "hello\nworld\n".toList 1 2] ∧
    Indexer.Op.deleteChunksForFile 1 ∈
      Indexer.IndexFileOps Indexer.DefaultConfig false "/p/a.go" 1 modTime hash
        "hello\nworld\n".toList ∧
    Indexer.Op.embed [String.mk "hello\nworld\n".toList] ∈
      Indexer.IndexFileOps Indexer.DefaultConfig false "/p/a.go" 1 modTime hash
        "hello\nworld\n".toList := by
  have h : Indexer.IndexFileOps Indexer.DefaultConfig false "/p/a.go" 1 modTime hash
        "hello\nworld\n".toList
      = [Indexer.Op.upsertFile "/p/a.go" modTime hash,
         Indexer.Op.deleteChunksForFile 1,
         Indexer.Op.embed [String.mk "hello\nworld\n".toList],
         Indexer.Op.insertChunk 1 "hello\nworld\n".toList 1 2] := rfl
  refine ⟨h, ?_, ?_⟩
  · rw [h]
    exact List.mem_cons_of_mem _ (List.mem_cons_self _ _)
  · rw [h]
    exact List.mem_cons_of_mem _ (List.mem_cons_of_mem _ (List.mem_cons_self _ _))

/-! ## Store: chunk queries and vector search (`pkg/db/chunks.go`,
`pkg/db/graph.go`) — claims C6, C9, C10

The two tables the chunk queries touch are explicit lists of rows:
`files (id PRIMARY KEY, path)` and `vec_chunks (chunk_id, file_id,
content_snippet, start_line, end_line, embedding)`.  Embedding coordinates
are `ℚ` (sqlite-vec stores float32; no claim depends on rounding) and the
cosine distance of the external sqlite-vec extension is the parameter
`dist`, SQLite's `LIKE` the parameter `like`.
-/

namespace Db

/-- Insertion step of the sort modelling SQL `ORDER BY`. -/
def insertSorted (le : α → α → Bool) (a : α) : List α → List α
  | [] => [a]
  | b :: bs => if le a b then a :: b :: bs else b :: insertSorted le a bs

/-- The sort modelling SQL `ORDER BY key` (insertion sort: executable and
structurally recursive; SQL fixes only the key order, which is all the
claims concern). -/
def sortBy (le : α → α → Bool) : List α → List α
  | [] => []
  | a :: as => insertSorted le a (sortBy le as)

theorem mem_insertSorted (le : α → α → Bool) (a : α) :
    ∀ (l : List α) (b : α), b ∈ insertSorted le a l ↔ b = a ∨ b ∈ l := by
  intro l
  induction l with
  | nil => intro b; simp [insertSorted]
  | cons c cs ih =>
      intro b
      simp only [insertSorted]
      split
      · simp
      · simp only [List.mem_cons, ih b]
        tauto

theorem mem_sortBy (le : α → α → Bool) :
    ∀ (l : List α) (b : α), b ∈ sortBy le l ↔ b ∈ l := by
  intro l
  induction l with
  | nil => intro b; simp [sortBy]
  | cons c cs ih =>
      intro b
      simp only [sortBy, mem_insertSorted, ih b, List.mem_cons]

theorem pairwise_insertSorted (le : α → α → Bool)
    (htot : ∀ x y, le x y = true ∨ le y x = true)
    (htrans : ∀ x y z, le x y = true → le y z = true → le x z = true)
    (a : α) : ∀ (l : List α),
      List.Pairwise (fun x y => le x y = true) l →
      List.Pairwise (fun x y => le x y = true) (insertSorted le a l) := by
  intro l
  induction l with
  | nil => intro _; simp [insertSorted]
  | cons c cs ih =>
      intro hp
      rcases List.pairwise_cons.mp hp with ⟨hc, hcs⟩
      simp only [insertSorted]
      split
      · next hle =>
          refine List.pairwise_cons.mpr ⟨?_, hp⟩
          intro b hb
          rcases List.mem_cons.mp hb with rfl | hb
          · exact hle
          · exact htrans a c b hle (hc b hb)
      · next hle =>
          refine List.pairwise_cons.mpr ⟨?_, ih hcs⟩
          intro b hb
          rcases (mem_insertSorted le a cs b).mp hb with rfl | hb
          · rcases htot c b with h | h
            · exact h
            · cases hle h
          · exact hc b hb

theorem pairwise_sortBy (le : α → α → Bool)
    (htot : ∀ x y, le x y = true ∨ le y x = true)
    (htrans : ∀ x y z, le x y = true → le y z = true → le x z = true) :
    ∀ (l : List α), List.Pairwise (fun x y => le x y = true) (sortBy le l) := by
  intro l
  induction l with
  | nil => simp [sortBy]
  | cons c cs ih => exact pairwise_insertSorted le htot htrans c _ ih

/-- A row of the `files` table as the chunk queries join it. -/
structure FileRec where
  id : Int
  path : String
deriving Repr, DecidableEq

/-- A row of the `vec_chunks` virtual table. -/
structure VecChunkRow where
  chunkID : Int
  fileID : Int
  contentSnippet : String
  startLine : Int
  endLine : Int
  embedding : List ℚ
deriving Repr, DecidableEq

/-- The store state the chunk queries read. -/
structure Store where
  embeddingDim : Nat
  files : List FileRec
  vecChunks : List VecChunkRow
deriving Repr, DecidableEq

/-- `db.ChunkWithPath` (`pkg/db/chunks.go`). -/
structure ChunkWithPath where
  chunkID : Int
  fileID : Int
  filePath : String
  contentSnippet : String
  startLine : Int
  endLine : Int
deriving Repr, DecidableEq

/-- The `JOIN files f ON v.file_id = f.id` step for one chunk row: the file
row with the matching primary key (`id` is the table's primary key, so
`find?` is the join). -/
def joinFile (st : Store) (v : VecChunkRow) : Option FileRec :=
  st.files.find? (fun f => f.id == v.fileID)

def toChunkWithPath (v : VecChunkRow) (f : FileRec) : ChunkWithPath :=
  { chunkID := v.chunkID, fileID := v.fileID, filePath := f.path
    contentSnippet := v.contentSnippet, startLine := v.startLine, endLine := v.endLine }

/-- Embedding of `GetChunksByIDs` (`pkg/db/chunks.go`): `nil` for an empty
id list, otherwise `SELECT ... FROM vec_chunks v JOIN files f ON v.file_id
= f.id WHERE v.chunk_id IN (...) ORDER BY v.chunk_id` — the `IN` filter,
the join, and the sort **by chunk id**, not by the caller's order. -/
def GetChunksByIDs (st : Store) (chunkIDs : List Int) : List ChunkWithPath :=
  if chunkIDs = [] then []
  else
    sortBy (fun a b => a.chunkID ≤ b.chunkID)
      ((st.vecChunks.filter (fun v => chunkIDs.contains v.chunkID)).filterMap
        (fun v => (joinFile st v).map (toChunkWithPath v)))

/-- `db.Chunk` as the search scans return it (the `Embedding` field is set
to nil by the scanners, so it is omitted). -/
structure DbChunk where
  chunkID : Int
  fileID : Int
  contentSnippet : String
  startLine : Int
  endLine : Int
deriving Repr, DecidableEq

def toDbChunk (v : VecChunkRow) : DbChunk :=
  { chunkID := v.chunkID, fileID := v.fileID, contentSnippet := v.contentSnippet
    startLine := v.startLine, endLine := v.endLine }

/-- `db.RelatedChunk` (`pkg/db/chunks.go`). -/
structure RelatedChunk where
  chunk : DbChunk
  relationType : String
  weight : ℚ
  depth : Int
deriving Repr, DecidableEq

/-- `db.SearchResult` (`pkg/db/chunks.go`). -/
structure SearchResult where
  chunk : DbChunk
  distance : ℚ
  relatedChunks : List RelatedChunk
deriving Repr, DecidableEq

/-- `db.GetNeighborsOptions` (`pkg/db/graph.go`). -/
structure GetNeighborsOptions where
  chunkID : Int
  maxDepth : Int
  minWeight : ℚ
  limit : Int
deriving Repr, DecidableEq

/-- `db.Neighbor` (`pkg/db/graph.go`). -/
structure Neighbor where
  chunkID : Int
  depth : Int
  totalWeight : ℚ
  relationType : String
deriving Repr, DecidableEq

/-- Embedding of `GetNeighbors` (`pkg/db/graph.go`, legacy chunk-to-chunk
section): the body is `return []*Neighbor{}, nil` — the empty list and no
error, for every option value. -/
def GetNeighbors (st : Store) (opts : GetNeighborsOptions) :
    Except String (List Neighbor) :=
  .ok []

/-- Embedding of `GetChunk` (`pkg/db/chunks.go`): the row with the given
chunk id, if any. -/
def GetChunk (st : Store) (chunkID : Int) : Option DbChunk :=
  (st.vecChunks.find? (fun v => v.chunkID == chunkID)).map toDbChunk

/-- Embedding of `GetFileByID` (`pkg/db/files.go`). -/
def GetFileByID (st : Store) (id : Int) : Option FileRec :=
  st.files.find? (fun f => f.id == id)

/-- Embedding of `SearchSimilar` (`pkg/db/chunks.go`): dimension check on
the query embedding, the `limit <= 0 → 10` substitution, then the SQL over
the vec index.  The virtual-table step is modelled from the spec:
sqlite-vec's `WHERE embedding MATCH ? AND k = ?` returns the k nearest rows
by distance ascending; the `JOIN files` and the optional `f.path LIKE ?`
conjunct then filter those rows, and `ORDER BY distance` keeps the order.
Results carry no related chunks. -/
def SearchSimilar (dist : List ℚ → List ℚ → ℚ) (like : String → String → Bool)
    (st : Store) (queryEmbedding : List ℚ) (limit : Int) (pathFilter : String) :
    Except String (List SearchResult) :=
  if queryEmbedding.length ≠ st.embeddingDim then
    .error ("query embedding dimension mismatch: expected " ++ toString st.embeddingDim
      ++ ", got " ++ toString queryEmbedding.length)
  else
    let limit := if limit ≤ 0 then 10 else limit
    let knn := (sortBy
        (fun a b => dist queryEmbedding a.embedding ≤ dist queryEmbedding b.embedding)
        st.vecChunks).take limit.toNat
    let joined := knn.filterMap (fun v => (joinFile st v).map (fun f => (v, f)))
    let rows := if pathFilter ≠ "" then joined.filter (fun vf => like vf.2.path pathFilter)
                else joined
    .ok (rows.map fun vf =>
      { chunk := toDbChunk vf.1
        distance := dist queryEmbedding vf.1.embedding
        relatedChunks := [] })

/-- The per-neighbor step of `SearchWithRelations` (`pkg/db/chunks.go`):
fetch the neighbor's chunk (skip on miss), re-apply the path filter by
prefix after trimming a trailing `%` (skip on mismatch), and build the
`RelatedChunk`. -/
def neighborToRelated (st : Store) (pathFilter : String) (n : Neighbor) :
    Option RelatedChunk :=
  match GetChunk st n.chunkID with
  | none => none
  | some chunk =>
      let keep :=
        if pathFilter ≠ "" then
          match GetFileByID st chunk.fileID with
          | none => false
          | some file =>
              let pfx := if pathFilter.endsWith "%" then pathFilter.dropRight 1
                         else pathFilter
              file.path.startsWith pfx
        else true
      if keep then
        some { chunk := chunk, relationType := n.relationType
               weight := n.totalWeight, depth := n.depth }
      else none

/-- Embedding of `SearchWithRelations` (`pkg/db/chunks.go`): run
`SearchSimilar` with the same arguments, then for each result fetch up to 5
graph neighbors via `GetNeighbors` (errors skipped) and append them as
related chunks. -/
def SearchWithRelations (dist : List ℚ → List ℚ → ℚ) (like : String → String → Bool)
    (st : Store) (queryEmbedding : List ℚ) (limit maxDepth : Int)
    (pathFilter : String) : Except String (List SearchResult) :=
  (SearchSimilar dist like st queryEmbedding limit pathFilter).map
    (List.map fun r =>
      match GetNeighbors st
          { chunkID := r.chunk.chunkID, maxDepth := maxDepth
            minWeight := 0, limit := 5 } with
      | .error _ => r
      | .ok neighbors =>
          { r with relatedChunks :=
              r.relatedChunks ++ neighbors.filterMap (neighborToRelated st pathFilter) })

/-- Every result `SearchSimilar` returns carries an empty related-chunks
list: the scanner builds each `SearchResult` with only chunk and distance. -/
theorem searchSimilar_relatedChunks_empty (dist : List ℚ → List ℚ → ℚ)
    (like : String → String → Bool) (st : Store) (queryEmbedding : List ℚ)
    (limit : Int) (pathFilter : String) (rs : List SearchResult)
    (h : SearchSimilar dist like st queryEmbedding limit pathFilter = .ok rs) :
    ∀ r ∈ rs, r.relatedChunks = [] := by
  unfold SearchSimilar at h
  split at h
  · exact absurd h (by simp)
  · simp only [Except.ok.injEq] at h
    subst h
    intro r hr
    rcases List.mem_map.mp hr with ⟨vf, -, rfl⟩
    rfl

end Db

/-- C6 (amended): `GetChunksByIDs` returns exactly the joined rows whose
chunk id appears in the caller's list, ordered by **ascending chunk id**
(the SQL ends in `ORDER BY v.chunk_id`), not in the caller's order; the
caller's order is preserved only when the caller's list happens to be
ascending. -/
theorem C6_getChunksByIDs_sorted_by_id_amended (st : Db.Store) (chunkIDs : List Int) :
    List.Pairwise (fun a b : Db.ChunkWithPath => a.chunkID ≤ b.chunkID)
      (Db.GetChunksByIDs st chunkIDs) ∧
    (∀ c, c ∈ Db.GetChunksByIDs st chunkIDs ↔
      (∃ v ∈ st.vecChunks, v.chunkID ∈ chunkIDs ∧
        ∃ f, Db.joinFile st v = some f ∧ c = Db.toChunkWithPath v f)) := by
  unfold Db.GetChunksByIDs
  by_cases hids : chunkIDs = []
  · subst hids
    simp
  · rw [if_neg hids]
    constructor
    · have hs := Db.pairwise_sortBy
        (fun a b : Db.ChunkWithPath => a.chunkID ≤ b.chunkID)
        (fun x y => by
          simp only [decide_eq_true_eq]
          omega)
        (fun x y z hxy hyz => by
          simp only [decide_eq_true_eq] at *
          omega)
        ((st.vecChunks.filter (fun v => chunkIDs.contains v.chunkID)).filterMap
          (fun v => (Db.joinFile st v).map (Db.toChunkWithPath v)))
      exact hs.imp (by simp)
    · intro c
      simp only [Db.mem_sortBy, List.mem_filterMap, List.mem_filter,
        Option.map_eq_some']
      constructor
      · rintro ⟨v, ⟨hv, hin⟩, f, hf, rfl⟩
        exact ⟨v, hv, List.elem_iff.mp hin, f, hf, rfl⟩
      · rintro ⟨v, hv, hin, f, hf, rfl⟩
        exact ⟨v, ⟨hv, List.elem_iff.mpr hin⟩, f, hf, rfl⟩

/-- The concrete store of the C6 counterexample: chunks 1 and 2 with
matching file rows. -/
def c6Store : Db.Store :=
  { embeddingDim := 4
    files := [{ id := 1, path := "/p/a.go" }, { id := 2, path := "/p/b.go" }]
    vecChunks :=
      [{ chunkID := 1, fileID := 1, contentSnippet := "aa"
         startLine := 1, endLine := 2, embedding := [] },
       { chunkID := 2, fileID := 2, contentSnippet := "bb"
         startLine := 1, endLine := 2, embedding := [] }] }

/-- C6 (counterexample to the claim as stated): for the caller's id list
`[2, 1]`, `GetChunksByIDs` returns the chunks in id order `[1, 2]`, not in
the caller's order `[2, 1]`. -/
theorem C6_counterexample :
    (Db.GetChunksByIDs c6Store [2, 1]).map (fun c => c.chunkID) = [1, 2] ∧
    ¬ (Db.GetChunksByIDs c6Store [2, 1]).map (fun c => c.chunkID) = [2, 1] := by
  decide

/-- C9: `GetNeighbors` returns the empty neighbor list and no error for
every option value, and consequently `SearchWithRelations` returns exactly
the `SearchSimilar` result for the same arguments, every result's
related-chunks list empty. -/
theorem C9_searchWithRelations_eq_searchSimilar
    (dist : List ℚ → List ℚ → ℚ) (like : String → String → Bool) (st : Db.Store)
    (queryEmbedding : List ℚ) (limit maxDepth : Int) (pathFilter : String) :
    (∀ opts, Db.GetNeighbors st opts = .ok []) ∧
    Db.SearchWithRelations dist like st queryEmbedding limit maxDepth pathFilter
      = Db.SearchSimilar dist like st queryEmbedding limit pathFilter ∧
    (∀ rs, Db.SearchWithRelations dist like st queryEmbedding limit maxDepth pathFilter
        = .ok rs → ∀ r ∈ rs, r.relatedChunks = []) := by
  have hid : ∀ r : Db.SearchResult,
      (match Db.GetNeighbors st
          { chunkID := r.chunk.chunkID, maxDepth := maxDepth
            minWeight := 0, limit := 5 } with
       | .error _ => r
       | .ok neighbors =>
           { r with relatedChunks :=
               r.relatedChunks ++
                 neighbors.filterMap (Db.neighborToRelated st pathFilter) }) = r := by
    intro r
    show ({ r with relatedChunks :=
        r.relatedChunks ++
          List.filterMap (Db.neighborToRelated st pathFilter) [] } = r)
    rw [List.filterMap_nil, List.append_nil]
  have heq : Db.SearchWithRelations dist like st queryEmbedding limit maxDepth pathFilter
      = Db.SearchSimilar dist like st queryEmbedding limit pathFilter := by
    unfold Db.SearchWithRelations
    cases hss : Db.SearchSimilar dist like st queryEmbedding limit pathFilter with
    | error e => rfl
    | ok rs =>
        show Except.ok (rs.map _) = _
        rw [List.map_id'' hid]
  refine ⟨fun _ => rfl, heq, ?_⟩
  intro rs hrs
  rw [heq] at hrs
  exact Db.searchSimilar_relatedChunks_empty dist like st queryEmbedding limit
    pathFilter rs hrs

/-- C10: for every query embedding of the stored dimension and every limit
`k ≤ 0`, `SearchSimilar` returns no error on account of `k`: it behaves
exactly as with the default limit 10 — the result is `.ok`, holds at most
10 results, and is ordered by ascending distance. -/
theorem C10_searchSimilar_nonpositive_limit_defaults_to_10
    (dist : List ℚ → List ℚ → ℚ) (like : String → String → Bool) (st : Db.Store)
    (queryEmbedding : List ℚ) (pathFilter : String) (k : Int)
    (hdim : queryEmbedding.length = st.embeddingDim) (hk : k ≤ 0) :
    Db.SearchSimilar dist like st queryEmbedding k pathFilter
      = Db.SearchSimilar dist like st queryEmbedding 10 pathFilter ∧
    ∃ rs, Db.SearchSimilar dist like st queryEmbedding k pathFilter = .ok rs ∧
      rs.length ≤ 10 ∧
      List.Pairwise (fun a b : Db.SearchResult => a.distance ≤ b.distance) rs := by
  have h1 : ¬(queryEmbedding.length ≠ st.embeddingDim) := fun hcon => hcon hdim
  unfold Db.SearchSimilar
  simp only [if_neg h1, if_pos hk, ite_self]
  refine ⟨trivial, _, rfl, ?_, ?_⟩
  · rw [List.length_map]
    have hknn : ((Db.sortBy
        (fun a b => dist queryEmbedding a.embedding ≤ dist queryEmbedding b.embedding)
        st.vecChunks).take (10 : Int).toNat).length ≤ 10 := by
      rw [List.length_take]
      omega
    have hjoined := List.length_filterMap_le
      (fun v => (Db.joinFile st v).map (fun f => (v, f)))
      ((Db.sortBy
        (fun a b => dist queryEmbedding a.embedding ≤ dist queryEmbedding b.embedding)
        st.vecChunks).take (10 : Int).toNat)
    split
    · exact le_trans (le_trans (List.length_filter_le _ _) hjoined) hknn
    · exact le_trans hjoined hknn
  · have hsorted := Db.pairwise_sortBy
      (fun a b : Db.VecChunkRow =>
        dist queryEmbedding a.embedding ≤ dist queryEmbedding b.embedding)
      (fun x y => by
        simp only [decide_eq_true_eq]
        exact le_total _ _)
      (fun x y z hxy hyz => by
        simp only [decide_eq_true_eq] at *
        exact le_trans hxy hyz)
      st.vecChunks
    have hknn : List.Pairwise
        (fun a b : Db.VecChunkRow =>
          dist queryEmbedding a.embedding ≤ dist queryEmbedding b.embedding)
        ((Db.sortBy
          (fun a b => dist queryEmbedding a.embedding ≤ dist queryEmbedding b.embedding)
          st.vecChunks).take (10 : Int).toNat) :=
      ((hsorted.imp (by simp)).sublist (List.take_sublist _ _))
    have hjoined : List.Pairwise
        (fun p q : Db.VecChunkRow × Db.FileRec =>
          dist queryEmbedding p.1.embedding ≤ dist queryEmbedding q.1.embedding)
        (((Db.sortBy
          (fun a b => dist queryEmbedding a.embedding ≤ dist queryEmbedding b.embedding)
          st.vecChunks).take (10 : Int).toNat).filterMap
            (fun v => (Db.joinFile st v).map (fun f => (v, f)))) := by
      rw [List.pairwise_filterMap]
      refine hknn.imp ?_
      intro a b hab p hp q hq
      rcases Option.map_eq_some'.mp hp with ⟨fa, -, rfl⟩
      rcases Option.map_eq_some'.mp hq with ⟨fb, -, rfl⟩
      exact hab
    have hrows : List.Pairwise
        (fun p q : Db.VecChunkRow × Db.FileRec =>
          dist queryEmbedding p.1.embedding ≤ dist queryEmbedding q.1.embedding)
        (if pathFilter ≠ "" then
          (((Db.sortBy
            (fun a b => dist queryEmbedding a.embedding ≤ dist queryEmbedding b.embedding)
            st.vecChunks).take (10 : Int).toNat).filterMap
              (fun v => (Db.joinFile st v).map (fun f => (v, f)))).filter
            (fun vf => like vf.2.path pathFilter)
         else
          ((Db.sortBy
            (fun a b => dist queryEmbedding a.embedding ≤ dist queryEmbedding b.embedding)
            st.vecChunks).take (10 : Int).toNat).filterMap
              (fun v => (Db.joinFile st v).map (fun f => (v, f)))) := by
      split
      · exact hjoined.filter _
      · exact hjoined
    rw [List.pairwise_map]
    exact hrows

/-- Witness for C10 at a concrete input: the two-chunk store of the C6
counterexample, query embedding of the stored dimension 4, limit `-1`. -/
theorem C10_searchSimilar_nonpositive_limit_defaults_to_10_witness :
    Db.SearchSimilar (fun _ _ => 0) (fun _ _ => true) c6Store
        [0, 0, 0, 0] (-1) ""
      = Db.SearchSimilar (fun _ _ => 0) (fun _ _ => true) c6Store
        [0, 0, 0, 0] 10 "" :=
  (C10_searchSimilar_nonpositive_limit_defaults_to_10 (fun _ _ => 0)
      (fun _ _ => true) c6Store [0, 0, 0, 0] "" (-1)
      (by decide) (by decide)).1

/-! ## LLM adapter types (`pkg/llm/jsonl.go` and friends) — shared by the
graph batch (C5) and the JSONL parser (C8). -/

namespace Llm

/-- `llm.Edge`. -/
structure Edge where
  source : String
  sourceType : String
  target : String
  targetType : String
  relationType : String
deriving Repr, DecidableEq

/-- `llm.EdgeWithMetadata`. -/
structure EdgeWithMetadata where
  edge : Edge
  chunkID : Int
  fileID : Int
deriving Repr, DecidableEq

/-- `llm.ChunkInput`. -/
structure ChunkInput where
  chunkID : Int
  fileID : Int
  filePath : String
  content : String
deriving Repr, DecidableEq

end Llm

/-! ## Graph extraction batch (`pkg/indexer/graph.go`,
`pkg/indexer/graph_worker.go`, `pkg/db/graph.go`, `pkg/db/graph_state.go`)
— claim C5

The entity/edge tables and the `chunk_graph_state` watermark as explicit
state; `ExtractEdgesBatch` is the function parameter `provider` (one call
per sub-batch).  `UpsertEntity` follows the `INSERT OR IGNORE` + `SELECT
id` pair keyed on `(name, entity_type, chunk_id)`; `UpsertEntityEdge`
follows the `ON CONFLICT(source_entity_id, target_entity_id, chunk_id) DO
UPDATE` statement with weight 1.0.
-/

namespace Graph

/-- A row of the `entities` table. -/
structure EntityRow where
  id : Int
  name : String
  entityType : String
  chunkID : Int
deriving Repr, DecidableEq

/-- A row of the `graph_edges` table. -/
structure EdgeRow where
  sourceEntityID : Int
  targetEntityID : Int
  relationType : String
  chunkID : Int
  weight : ℚ
deriving Repr, DecidableEq

/-- The graph-side store state: the entity and edge tables (with the next
auto-increment entity id) and the chunk ids whose watermark row says
`graph_extracted = 1`. -/
structure GraphState where
  nextEntityID : Int
  entities : List EntityRow
  edges : List EdgeRow
  extracted : List Int
deriving Repr, DecidableEq

/-- The `(name, entity_type, chunk_id)` key test of `UpsertEntity`. -/
def entityKeyMatches (name entityType : String) (chunkID : Int) (e : EntityRow) : Bool :=
  e.name == name && e.entityType == entityType && e.chunkID == chunkID

/-- Embedding of `UpsertEntity` (`pkg/db/graph.go`): `INSERT OR IGNORE` on
the key, then the id — the existing row's when the insert was ignored, the
fresh auto-increment id otherwise. -/
def UpsertEntity (name entityType : String) (chunkID : Int) (gs : GraphState) :
    Int × GraphState :=
  match gs.entities.find? (entityKeyMatches name entityType chunkID) with
  | some e => (e.id, gs)
  | none =>
      (gs.nextEntityID,
       { gs with
           entities := gs.entities ++
             [{ id := gs.nextEntityID, name := name
                entityType := entityType, chunkID := chunkID }]
           nextEntityID := gs.nextEntityID + 1 })

/-- The `(source_entity_id, target_entity_id, chunk_id)` conflict key of
`UpsertEntityEdge`. -/
def edgeKeyMatches (s t c : Int) (e : EdgeRow) : Bool :=
  e.sourceEntityID == s && e.targetEntityID == t && e.chunkID == c

/-- The `DO UPDATE SET relation_type = ..., weight = 1.0` applied to rows
hitting the conflict key. -/
def updateEdge (s t : Int) (rel : String) (c : Int) (e : EdgeRow) : EdgeRow :=
  if edgeKeyMatches s t c e then { e with relationType := rel, weight := 1 } else e

/-- Embedding of `UpsertEntityEdge` (`pkg/db/graph.go`): insert with weight
1.0, or on key conflict update relation type and weight of the existing
row. -/
def UpsertEntityEdge (sourceID targetID : Int) (relationType : String)
    (chunkID : Int) (gs : GraphState) : GraphState :=
  if gs.edges.any (edgeKeyMatches sourceID targetID chunkID) then
    { gs with edges := gs.edges.map (updateEdge sourceID targetID relationType chunkID) }
  else
    { gs with
        edges := gs.edges ++
          [{ sourceEntityID := sourceID, targetEntityID := targetID
             relationType := relationType, chunkID := chunkID, weight := 1 }] }

/-- The per-edge body of `ProcessGraphBatch`'s storage loop
(`pkg/indexer/graph.go`): upsert source entity, target entity, then the
edge between them (the Go `continue`-on-error arms are dead in this
embedding because the upserts are total). -/
def storeEdge (e : Llm.EdgeWithMetadata) (gs : GraphState) : GraphState :=
  let r1 := UpsertEntity e.edge.source e.edge.sourceType e.chunkID gs
  let r2 := UpsertEntity e.edge.target e.edge.targetType e.chunkID r1.2
  UpsertEntityEdge r1.1 r2.1 e.edge.relationType e.chunkID r2.2

/-- The storage loop over one sub-batch's extracted edges. -/
def storeEdges (edges : List Llm.EdgeWithMetadata) (gs : GraphState) : GraphState :=
  edges.foldl (fun gs e => storeEdge e gs) gs

/-- `llm.ChunkInput` built from a fetched chunk row
(`pkg/indexer/graph.go`). -/
def toChunkInput (c : Db.ChunkWithPath) : Llm.ChunkInput :=
  { chunkID := c.chunkID, fileID := c.fileID
    filePath := c.filePath, content := c.contentSnippet }

/-- The sub-batch loop of `ProcessGraphBatch`: call the provider on each
sub-batch in turn; on the first error return it (with the 1-based batch
number) and the state built so far; otherwise store the edges and continue,
accumulating the edge count. -/
def runBatches (provider : List Llm.ChunkInput → Except String (List Llm.EdgeWithMetadata))
    (gs : GraphState) :
    List (List Db.ChunkWithPath) → Nat → Nat → Except String Nat × GraphState
  | [], total, _ => (.ok total, gs)
  | b :: rest, total, batchNum =>
      match provider (b.map toChunkInput) with
      | .error e => (.error ("batch " ++ toString batchNum ++ ": " ++ e), gs)
      | .ok edges =>
          runBatches provider (storeEdges edges gs) rest (total + edges.length) (batchNum + 1)

/-- Embedding of `ProcessGraphBatch` (`pkg/indexer/graph.go`): empty id
list and empty fetch short-circuit with 0 edges; otherwise the configured
graph batch size (fallback 100 when non-positive, capped at the fetched
count) splits the fetched chunks into sub-batches processed by
`runBatches`. -/
def ProcessGraphBatch
    (provider : List Llm.ChunkInput → Except String (List Llm.EdgeWithMetadata))
    (graphBatchSize : Int) (st : Db.Store) (gs : GraphState) (chunkIDs : List Int) :
    Except String Nat × GraphState :=
  if chunkIDs = [] then (.ok 0, gs)
  else
    let dbChunks := Db.GetChunksByIDs st chunkIDs
    if dbChunks = [] then (.ok 0, gs)
    else
      let batchSize : Int := if graphBatchSize ≤ 0 then 100 else graphBatchSize
      let batchSize : Int :=
        if batchSize > (dbChunks.length : Int) then (dbChunks.length : Int) else batchSize
      runBatches provider gs
        (Indexer.splitBatches batchSize.toNat (dbChunks.length + 1) dbChunks) 0 1

/-- Embedding of `MarkChunksGraphExtracted` (`pkg/db/graph_state.go`): a
no-op for the empty list, otherwise one transaction upserting a watermark
row per chunk id. -/
def MarkChunksGraphExtracted (chunkIDs : List Int) (gs : GraphState) : GraphState :=
  if chunkIDs = [] then gs
  else
    { gs with
        extracted := chunkIDs.foldl
          (fun acc id => if acc.contains id then acc else acc ++ [id]) gs.extracted }

/-- Embedding of the graph worker's `processChunks`
(`pkg/indexer/graph_worker.go`) on one drained batch of chunk ids: run
`ProcessGraphBatch`; on error do not mark anything; on success mark every
id of the batch extracted. -/
def processChunks
    (provider : List Llm.ChunkInput → Except String (List Llm.EdgeWithMetadata))
    (graphBatchSize : Int) (st : Db.Store) (gs : GraphState) (chunkIDs : List Int) :
    GraphState :=
  if chunkIDs = [] then gs
  else
    match ProcessGraphBatch provider graphBatchSize st gs chunkIDs with
    | (.error _, gs') => gs'
    | (.ok _, gs') => MarkChunksGraphExtracted chunkIDs gs'

/-! Facts about the graph-state operations used to settle C5. -/

theorem extracted_upsertEntity (n ty : String) (c : Int) (gs : GraphState) :
    ((UpsertEntity n ty c gs).2).extracted = gs.extracted := by
  unfold UpsertEntity
  split <;> rfl

theorem extracted_upsertEntityEdge (s t : Int) (r : String) (c : Int) (gs : GraphState) :
    (UpsertEntityEdge s t r c gs).extracted = gs.extracted := by
  unfold UpsertEntityEdge
  split <;> rfl

theorem extracted_storeEdge (e : Llm.EdgeWithMetadata) (gs : GraphState) :
    (storeEdge e gs).extracted = gs.extracted := by
  unfold storeEdge
  rw [extracted_upsertEntityEdge, extracted_upsertEntity, extracted_upsertEntity]

theorem extracted_storeEdges (es : List Llm.EdgeWithMetadata) :
    ∀ gs, (storeEdges es gs).extracted = gs.extracted := by
  induction es with
  | nil => intro gs; rfl
  | cons e es ih =>
      intro gs
      show (storeEdges es (storeEdge e gs)).extracted = gs.extracted
      rw [ih, extracted_storeEdge]

theorem entities_upsertEntityEdge (s t : Int) (r : String) (c : Int) (gs : GraphState) :
    (UpsertEntityEdge s t r c gs).entities = gs.entities := by
  unfold UpsertEntityEdge
  split <;> rfl

theorem edges_upsertEntity (n ty : String) (c : Int) (gs : GraphState) :
    ((UpsertEntity n ty c gs).2).edges = gs.edges := by
  unfold UpsertEntity
  split <;> rfl

theorem entities_prefix_upsertEntity (n ty : String) (c : Int) (gs : GraphState) :
    gs.entities <+: ((UpsertEntity n ty c gs).2).entities := by
  unfold UpsertEntity
  split
  · exact List.prefix_refl _
  · exact List.prefix_append _ _

theorem entities_prefix_storeEdge (e : Llm.EdgeWithMetadata) (gs : GraphState) :
    gs.entities <+: (storeEdge e gs).entities := by
  unfold storeEdge
  rw [entities_upsertEntityEdge]
  exact (entities_prefix_upsertEntity _ _ _ gs).trans (entities_prefix_upsertEntity _ _ _ _)

theorem entities_prefix_storeEdges (es : List Llm.EdgeWithMetadata) :
    ∀ gs, gs.entities <+: (storeEdges es gs).entities := by
  induction es with
  | nil => intro gs; exact List.prefix_refl _
  | cons e es ih =>
      intro gs
      exact (entities_prefix_storeEdge e gs).trans (ih (storeEdge e gs))

/-- An edge row with the same conflict key survives an operation. -/
def EdgeKeysPersist (l l' : List EdgeRow) : Prop :=
  ∀ ed ∈ l, ∃ ed' ∈ l',
    ed'.sourceEntityID = ed.sourceEntityID ∧
    ed'.targetEntityID = ed.targetEntityID ∧ ed'.chunkID = ed.chunkID

theorem edgeKeysPersist_refl (l : List EdgeRow) : EdgeKeysPersist l l :=
  fun ed hed => ⟨ed, hed, rfl, rfl, rfl⟩

theorem edgeKeysPersist_trans {l₁ l₂ l₃ : List EdgeRow}
    (h12 : EdgeKeysPersist l₁ l₂) (h23 : EdgeKeysPersist l₂ l₃) :
    EdgeKeysPersist l₁ l₃ := by
  intro ed hed
  rcases h12 ed hed with ⟨ed', hed', h1, h2, h3⟩
  rcases h23 ed' hed' with ⟨ed'', hed'', g1, g2, g3⟩
  exact ⟨ed'', hed'', by omega, by omega, by omega⟩

theorem edgeKeysPersist_upsertEntityEdge (s t : Int) (r : String) (c : Int)
    (gs : GraphState) : EdgeKeysPersist gs.edges (UpsertEntityEdge s t r c gs).edges := by
  unfold UpsertEntityEdge
  split
  · intro ed hed
    refine ⟨updateEdge s t r c ed, List.mem_map_of_mem _ hed, ?_, ?_, ?_⟩ <;>
      (unfold updateEdge; split <;> rfl)
  · intro ed hed
    exact ⟨ed, List.mem_append_left _ hed, rfl, rfl, rfl⟩

theorem edgeKeysPersist_storeEdge (e : Llm.EdgeWithMetadata) (gs : GraphState) :
    EdgeKeysPersist gs.edges (storeEdge e gs).edges := by
  unfold storeEdge
  have h := edgeKeysPersist_upsertEntityEdge
    (UpsertEntity e.edge.source e.edge.sourceType e.chunkID gs).1
    (UpsertEntity e.edge.target e.edge.targetType e.chunkID
      (UpsertEntity e.edge.source e.edge.sourceType e.chunkID gs).2).1
    e.edge.relationType e.chunkID
    (UpsertEntity e.edge.target e.edge.targetType e.chunkID
      (UpsertEntity e.edge.source e.edge.sourceType e.chunkID gs).2).2
  rwa [edges_upsertEntity, edges_upsertEntity] at h

theorem edgeKeysPersist_storeEdges (es : List Llm.EdgeWithMetadata) :
    ∀ gs, EdgeKeysPersist gs.edges (storeEdges es gs).edges := by
  induction es with
  | nil => intro gs; exact edgeKeysPersist_refl _
  | cons e es ih =>
      intro gs
      exact edgeKeysPersist_trans (edgeKeysPersist_storeEdge e gs) (ih (storeEdge e gs))

theorem runBatches_extracted
    (provider : List Llm.ChunkInput → Except String (List Llm.EdgeWithMetadata)) :
    ∀ (bs : List (List Db.ChunkWithPath)) (gs : GraphState) (total batchNum : Nat),
      ((runBatches provider gs bs total batchNum).2).extracted = gs.extracted := by
  intro bs
  induction bs with
  | nil => intro gs total bn; rfl
  | cons b rest ih =>
      intro gs total bn
      simp only [runBatches]
      cases hp : provider (b.map toChunkInput) with
      | error e => rfl
      | ok es =>
          rw [ih (storeEdges es gs), extracted_storeEdges]

theorem runBatches_entities_prefix
    (provider : List Llm.ChunkInput → Except String (List Llm.EdgeWithMetadata)) :
    ∀ (bs : List (List Db.ChunkWithPath)) (gs : GraphState) (total batchNum : Nat),
      gs.entities <+: ((runBatches provider gs bs total batchNum).2).entities := by
  intro bs
  induction bs with
  | nil => intro gs total bn; exact List.prefix_refl _
  | cons b rest ih =>
      intro gs total bn
      simp only [runBatches]
      cases hp : provider (b.map toChunkInput) with
      | error e => exact List.prefix_refl _
      | ok es =>
          exact (entities_prefix_storeEdges es gs).trans (ih (storeEdges es gs) _ _)

theorem runBatches_edgeKeysPersist
    (provider : List Llm.ChunkInput → Except String (List Llm.EdgeWithMetadata)) :
    ∀ (bs : List (List Db.ChunkWithPath)) (gs : GraphState) (total batchNum : Nat),
      EdgeKeysPersist gs.edges ((runBatches provider gs bs total batchNum).2).edges := by
  intro bs
  induction bs with
  | nil => intro gs total bn; exact edgeKeysPersist_refl _
  | cons b rest ih =>
      intro gs total bn
      simp only [runBatches]
      cases hp : provider (b.map toChunkInput) with
      | error e => exact edgeKeysPersist_refl _
      | ok es =>
          exact edgeKeysPersist_trans (edgeKeysPersist_storeEdges es gs)
            (ih (storeEdges es gs) _ _)

theorem runBatches_ok
    (provider : List Llm.ChunkInput → Except String (List Llm.EdgeWithMetadata))
    (hprov : ∀ input, ∃ es, provider input = .ok es) :
    ∀ (bs : List (List Db.ChunkWithPath)) (gs : GraphState) (total batchNum : Nat),
      ∃ n gs', runBatches provider gs bs total batchNum = (.ok n, gs') := by
  intro bs
  induction bs with
  | nil => intro gs total bn; exact ⟨total, gs, rfl⟩
  | cons b rest ih =>
      intro gs total bn
      rcases hprov (b.map toChunkInput) with ⟨es, hes⟩
      simp only [runBatches, hes]
      exact ih (storeEdges es gs) _ _

theorem mem_foldl_insertExtracted :
    ∀ (ids : List Int) (acc : List Int) (x : Int), (x ∈ acc ∨ x ∈ ids) →
      x ∈ ids.foldl (fun acc id => if acc.contains id then acc else acc ++ [id]) acc := by
  intro ids
  induction ids with
  | nil =>
      intro acc x hx
      simpa using hx.resolve_right (by simp)
  | cons i ids ih =>
      intro acc x hx
      show x ∈ ids.foldl _ (if acc.contains i then acc else acc ++ [i])
      refine ih _ x ?_
      rcases hx with hx | hx
      · left
        split
        · exact hx
        · exact List.mem_append_left _ hx
      · rcases List.mem_cons.mp hx with rfl | hx
        · left
          split
          · next hc => exact List.elem_iff.mp hc
          · exact List.mem_append_right _ (List.mem_singleton_self _)
        · right
          exact hx

theorem mem_markExtracted (ids : List Int) (gs : GraphState) :
    ∀ id ∈ ids, id ∈ (MarkChunksGraphExtracted ids gs).extracted := by
  intro id hid
  unfold MarkChunksGraphExtracted
  split
  · next h => exact absurd (h ▸ hid) (List.not_mem_nil id)
  · exact mem_foldl_insertExtracted ids gs.extracted id (Or.inr hid)

/-! Re-upserting an identical edge is a no-op ("absorbed as duplicates on
retry"). -/

theorem updateEdge_key (s t : Int) (rel : String) (c : Int) (e : EdgeRow) :
    edgeKeyMatches s t c (updateEdge s t rel c e) = edgeKeyMatches s t c e := by
  unfold updateEdge
  split <;> rfl

theorem updateEdge_of_not_key {s t : Int} {rel : String} {c : Int} {e : EdgeRow}
    (h : ¬ edgeKeyMatches s t c e = true) : updateEdge s t rel c e = e := by
  rw [updateEdge, if_neg h]

theorem updateEdge_idem (s t : Int) (rel : String) (c : Int) (e : EdgeRow) :
    updateEdge s t rel c (updateEdge s t rel c e) = updateEdge s t rel c e := by
  by_cases h : edgeKeyMatches s t c e = true
  · have he : updateEdge s t rel c e = { e with relationType := rel, weight := 1 } := by
      rw [updateEdge, if_pos h]
    rw [he, updateEdge,
      if_pos (show edgeKeyMatches s t c { e with relationType := rel, weight := 1 } = true
        from h)]
  · have he : updateEdge s t rel c e = e := updateEdge_of_not_key h
    rw [he, he]

theorem upsertEntityEdge_eq_of_fixed {s t : Int} {rel : String} {c : Int}
    {g : GraphState} (hany : g.edges.any (edgeKeyMatches s t c) = true)
    (hmap : g.edges.map (updateEdge s t rel c) = g.edges) :
    UpsertEntityEdge s t rel c g = g := by
  rw [UpsertEntityEdge, if_pos hany, hmap]

theorem upsertEntityEdge_idem (s t : Int) (rel : String) (c : Int) (gs : GraphState) :
    UpsertEntityEdge s t rel c (UpsertEntityEdge s t rel c gs)
      = UpsertEntityEdge s t rel c gs := by
  by_cases h : gs.edges.any (edgeKeyMatches s t c) = true
  · have hg : UpsertEntityEdge s t rel c gs
        = { gs with edges := gs.edges.map (updateEdge s t rel c) } := by
      rw [UpsertEntityEdge, if_pos h]
    rw [hg]
    refine upsertEntityEdge_eq_of_fixed ?_ ?_
    · show (gs.edges.map (updateEdge s t rel c)).any (edgeKeyMatches s t c) = true
      rw [List.any_map]
      rcases List.any_eq_true.mp h with ⟨x, hx, hkey⟩
      refine List.any_eq_true.mpr ⟨x, hx, ?_⟩
      show edgeKeyMatches s t c (updateEdge s t rel c x) = true
      rw [updateEdge_key]
      exact hkey
    · show (gs.edges.map (updateEdge s t rel c)).map (updateEdge s t rel c)
        = gs.edges.map (updateEdge s t rel c)
      rw [List.map_map]
      exact List.map_congr_left fun e _ => updateEdge_idem s t rel c e
  · have hg : UpsertEntityEdge s t rel c gs
        = { gs with edges := gs.edges ++
            [{ sourceEntityID := s, targetEntityID := t
               relationType := rel, chunkID := c, weight := 1 }] } := by
      rw [UpsertEntityEdge, if_neg h]
    rw [hg]
    refine upsertEntityEdge_eq_of_fixed ?_ ?_
    · show (gs.edges ++ [_]).any (edgeKeyMatches s t c) = true
      rw [List.any_append]
      simp [edgeKeyMatches]
    · show (gs.edges ++ [_]).map (updateEdge s t rel c) = gs.edges ++ [_]
      rw [List.map_append]
      congr 1
      · have hid : gs.edges.map (updateEdge s t rel c) = gs.edges.map id :=
          List.map_congr_left fun e he =>
            updateEdge_of_not_key (by
              simp only [Bool.not_eq_true] at h
              rw [List.any_eq_false] at h
              exact h e he)
        rw [hid, List.map_id]
      · show [updateEdge s t rel c _] = [_]
        rw [updateEdge, if_pos (by simp [edgeKeyMatches])]

theorem upsertEntity_of_find {n ty : String} {c : Int} {gs : GraphState} {row : EntityRow}
    (h : gs.entities.find? (entityKeyMatches n ty c) = some row) :
    UpsertEntity n ty c gs = (row.id, gs) := by
  rw [UpsertEntity, h]

theorem upsertEntity_find_some (n ty : String) (c : Int) (gs : GraphState) :
    ∃ row, ((UpsertEntity n ty c gs).2).entities.find? (entityKeyMatches n ty c) = some row
      ∧ row.id = (UpsertEntity n ty c gs).1 := by
  cases hf : gs.entities.find? (entityKeyMatches n ty c) with
  | some e =>
      rw [upsertEntity_of_find hf]
      exact ⟨e, hf, rfl⟩
  | none =>
      refine ⟨{ id := gs.nextEntityID, name := n, entityType := ty, chunkID := c }, ?_, ?_⟩
      · show ((UpsertEntity n ty c gs).2).entities.find? _ = _
        rw [UpsertEntity, hf]
        show (gs.entities ++ [_]).find? _ = _
        rw [List.find?_append, hf]
        rw [List.find?_cons_of_pos _ (by simp [entityKeyMatches])]
        rfl
      · rw [UpsertEntity, hf]

theorem find?_of_prefix {p : EntityRow → Bool} {l l' : List EntityRow} {row : EntityRow}
    (hpre : l <+: l') (h : l.find? p = some row) : l'.find? p = some row := by
  rcases hpre with ⟨t, rfl⟩
  rw [List.find?_append, h]
  rfl

theorem storeEdge_idem (e : Llm.EdgeWithMetadata) (gs : GraphState) :
    storeEdge e (storeEdge e gs) = storeEdge e gs := by
  obtain ⟨srow, hsfind, hsid⟩ :=
    upsertEntity_find_some e.edge.source e.edge.sourceType e.chunkID gs
  set r1 := UpsertEntity e.edge.source e.edge.sourceType e.chunkID gs with hr1
  obtain ⟨trow, htfind, htid⟩ :=
    upsertEntity_find_some e.edge.target e.edge.targetType e.chunkID r1.2
  set r2 := UpsertEntity e.edge.target e.edge.targetType e.chunkID r1.2 with hr2
  have hsfind2 : (r2.2).entities.find?
      (entityKeyMatches e.edge.source e.edge.sourceType e.chunkID) = some srow :=
    find?_of_prefix (entities_prefix_upsertEntity _ _ _ r1.2) hsfind
  have hg3 : storeEdge e gs = UpsertEntityEdge r1.1 r2.1 e.edge.relationType e.chunkID r2.2 := rfl
  set g3 := UpsertEntityEdge r1.1 r2.1 e.edge.relationType e.chunkID r2.2 with hg3def
  have hents : g3.entities = r2.2.entities := entities_upsertEntityEdge _ _ _ _ _
  have hs3 : g3.entities.find?
      (entityKeyMatches e.edge.source e.edge.sourceType e.chunkID) = some srow := by
    rw [hents]
    exact hsfind2
  have ht3 : g3.entities.find?
      (entityKeyMatches e.edge.target e.edge.targetType e.chunkID) = some trow := by
    rw [hents]
    exact htfind
  show storeEdge e g3 = g3
  unfold storeEdge
  rw [upsertEntity_of_find hs3]
  show UpsertEntityEdge srow.id
    (UpsertEntity e.edge.target e.edge.targetType e.chunkID g3).1 e.edge.relationType
    e.chunkID (UpsertEntity e.edge.target e.edge.targetType e.chunkID g3).2 = g3
  rw [upsertEntity_of_find ht3, hsid, htid, hg3def]
  exact upsertEntityEdge_idem _ _ _ _ _

end Graph

/-- C5: for a drained batch of chunk ids — when every provider call
succeeds, `ProcessGraphBatch` returns ok and the worker marks every id of
the batch extracted in the single `MarkChunksGraphExtracted` transaction;
when a provider call fails, the worker marks nothing (the watermark set is
exactly the old one), while the entity rows and the edge keys upserted by
the earlier successful sub-batches remain in the returned state; and
re-upserting an identical edge leaves the state unchanged, so surviving
rows are absorbed as duplicates on retry. -/
theorem C5_graph_batch_watermark
    (provider : List Llm.ChunkInput → Except String (List Llm.EdgeWithMetadata))
    (graphBatchSize : Int) (st : Db.Store) (gs : Graph.GraphState)
    (chunkIDs : List Int) :
    ((∀ input, ∃ es, provider input = .ok es) →
      ∃ n gs', Graph.ProcessGraphBatch provider graphBatchSize st gs chunkIDs
        = (.ok n, gs')) ∧
    (∀ n gs',
      Graph.ProcessGraphBatch provider graphBatchSize st gs chunkIDs = (.ok n, gs') →
      Graph.processChunks provider graphBatchSize st gs chunkIDs
        = Graph.MarkChunksGraphExtracted chunkIDs gs' ∧
      ∀ id ∈ chunkIDs, id ∈ (Graph.MarkChunksGraphExtracted chunkIDs gs').extracted) ∧
    (∀ e gs',
      Graph.ProcessGraphBatch provider graphBatchSize st gs chunkIDs = (.error e, gs') →
      Graph.processChunks provider graphBatchSize st gs chunkIDs = gs' ∧
      gs'.extracted = gs.extracted ∧
      gs.entities <+: gs'.entities ∧
      Graph.EdgeKeysPersist gs.edges gs'.edges) ∧
    (∀ ed g, Graph.storeEdge ed (Graph.storeEdge ed g) = Graph.storeEdge ed g) := by
  refine ⟨?_, ?_, ?_, fun ed g => Graph.storeEdge_idem ed g⟩
  · intro hprov
    simp only [Graph.ProcessGraphBatch]
    split
    · exact ⟨0, gs, rfl⟩
    · split
      · exact ⟨0, gs, rfl⟩
      · exact Graph.runBatches_ok provider hprov _ gs _ _
  · intro n gs' h
    refine ⟨?_, fun id hid => Graph.mem_markExtracted chunkIDs gs' id hid⟩
    simp only [Graph.processChunks]
    split
    · next hnil =>
        subst hnil
        have h' : ((Except.ok 0 : Except String Nat), gs) = (Except.ok n, gs') := h
        have hgs : gs = gs' := congrArg Prod.snd h'
        rw [show Graph.MarkChunksGraphExtracted [] gs' = gs' from rfl, hgs]
    · rw [h]
  · intro e gs' h
    have hrun : ∃ (bs : List (List Db.ChunkWithPath)) (total bn : Nat),
        (Graph.runBatches provider gs bs total bn).2 = gs' := by
      simp only [Graph.ProcessGraphBatch] at h
      split at h
      · exact absurd (congrArg Prod.fst h) (by simp)
      · split at h
        · exact absurd (congrArg Prod.fst h) (by simp)
        · exact ⟨_, _, _, congrArg Prod.snd h⟩
    rcases hrun with ⟨bs, total, bn, hr⟩
    refine ⟨?_, ?_, ?_, ?_⟩
    · simp only [Graph.processChunks]
      split
      · next hnil =>
          subst hnil
          have h' : ((Except.ok 0 : Except String Nat), gs) = (Except.error e, gs') := h
          exact absurd (congrArg Prod.fst h') (by simp)
      · rw [h]
    · rw [← hr, Graph.runBatches_extracted]
    · rw [← hr]
      exact Graph.runBatches_entities_prefix provider bs gs total bn
    · rw [← hr]
      exact Graph.runBatches_edgeKeysPersist provider bs gs total bn

/-! ## JSONL batch-response parser (`pkg/llm/jsonl.go`) — claim C8

`json.Unmarshal` into the per-line struct is the parameter `unmarshal`
(`.error msg` for a failed unmarshal, carrying Go's error text); the
`map[int]ChunkMetadata` chunk mapping is an association list.  All the
delimiters the parser inspects are ASCII, so `String` operations translate
directly.
-/

namespace Llm

/-- `llm.ChunkMetadata`. -/
structure ChunkMetadata where
  chunkID : Int
  fileID : Int
deriving Repr, DecidableEq

/-- The anonymous struct `json.Unmarshal` fills for one JSONL line. -/
structure ParsedLine where
  chunk : Int
  source : String
  sourceType : String
  target : String
  targetType : String
  relationType : String
deriving Repr, DecidableEq

/-- Go's `map[int]ChunkMetadata` lookup on the association list. -/
def lookupChunk (m : List (Int × ChunkMetadata)) (k : Int) : Option ChunkMetadata :=
  (m.find? (fun p => p.1 == k)).map (fun p => p.2)

/-- Embedding of `stripMarkdownCodeFence` (`pkg/llm/jsonl.go`): trim; when
the text starts with a code fence, drop everything up to and including the
first newline (when there is no newline the text is malformed and returned
as-is), drop a trailing fence, and trim again. -/
def stripMarkdownCodeFence (s : String) : String :=
  let s := s.trim
  if s.startsWith "```" then
    match s.splitOn "\n" with
    | [] => s
    | [_] => s
    | _ :: rest =>
        let s := String.intercalate "\n" rest
        let s := if s.endsWith "```" then s.dropRight 3 else s
        s.trim
  else s

/-- What `ParseJSONL`'s loop body does with one raw line: the blank /
markdown-artifact / non-JSON skips, then the unmarshal, then the chunk
number lookup. -/
inductive LineOutcome where
  | skip
  | edge (e : EdgeWithMetadata)
  | unmarshalErr (msg : String)
  | invalidChunk (chunkNum : Int)
deriving Repr, DecidableEq

/-- One iteration of `ParseJSONL`'s line loop (`pkg/llm/jsonl.go`), up to
the error-message formatting: trim, skip empty lines, skip backtick /
markdown artifacts, skip lines not starting with `{`, unmarshal, resolve
the chunk number. -/
def parseLine (unmarshal : String → Except String ParsedLine)
    (chunkMapping : List (Int × ChunkMetadata)) (rawLine : String) : LineOutcome :=
  let line := rawLine.trim
  if line = "" then .skip
  else if line.startsWith "```" || line.startsWith "`"
      || line = "```json" || line = "```" then .skip
  else if ¬ line.startsWith "\x7b" then .skip
  else
    match unmarshal line with
    | .error msg => .unmarshalErr msg
    | .ok parsed =>
        match lookupChunk chunkMapping parsed.chunk with
        | none => .invalidChunk parsed.chunk
        | some metadata =>
            .edge { edge := { source := parsed.source, sourceType := parsed.sourceType
                              target := parsed.target, targetType := parsed.targetType
                              relationType := parsed.relationType }
                    chunkID := metadata.chunkID, fileID := metadata.fileID }

/-- The accumulator step of `ParseJSONL` over `(lineNum, line)` pairs:
append parsed edges, record the formatted error strings (Go's 1-based
`line %d:` prefixes). -/
def parseStep (unmarshal : String → Except String ParsedLine)
    (chunkMapping : List (Int × ChunkMetadata))
    (acc : List EdgeWithMetadata × List String) (p : Nat × String) :
    List EdgeWithMetadata × List String :=
  match parseLine unmarshal chunkMapping p.2 with
  | .skip => acc
  | .edge e => (acc.1 ++ [e], acc.2)
  | .unmarshalErr msg =>
      (acc.1, acc.2 ++ ["line " ++ toString (p.1 + 1) ++ ": " ++ msg])
  | .invalidChunk k =>
      (acc.1, acc.2 ++ ["line " ++ toString (p.1 + 1) ++ ": invalid chunk number "
        ++ toString k])

/-- Embedding of `ParseJSONL` (`pkg/llm/jsonl.go`): strip the outer fence,
split on newlines, run the line loop; if any edge was parsed return the
edges and no error (logging aside); otherwise error when there were parse
errors (first 5 joined), else the empty ok. -/
def ParseJSONL (unmarshal : String → Except String ParsedLine) (response : String)
    (chunkMapping : List (Int × ChunkMetadata)) :
    Except String (List EdgeWithMetadata) :=
  let lines := (stripMarkdownCodeFence response).splitOn "\n"
  let r := lines.enum.foldl (parseStep unmarshal chunkMapping) ([], [])
  if r.1 ≠ [] then .ok r.1
  else if r.2 ≠ [] then
    .error ("failed to parse JSONL: "
      ++ String.intercalate "; " (r.2.take (min 5 r.2.length)))
  else .ok r.1

/-- The "successfully parsed edge" of one line, as the claim speaks of it. -/
def lineEdge? (unmarshal : String → Except String ParsedLine)
    (chunkMapping : List (Int × ChunkMetadata)) (rawLine : String) :
    Option EdgeWithMetadata :=
  match parseLine unmarshal chunkMapping rawLine with
  | .edge e => some e
  | _ => none

/-- Whether one line produces a parse error (a `{`-line that fails to
unmarshal, or a valid line with an unknown chunk number). -/
def lineIsError (unmarshal : String → Except String ParsedLine)
    (chunkMapping : List (Int × ChunkMetadata)) (rawLine : String) : Bool :=
  match parseLine unmarshal chunkMapping rawLine with
  | .unmarshalErr _ => true
  | .invalidChunk _ => true
  | _ => false

/-- The list of successfully parsed edges of a whole response, in line
order. -/
def validEdges (unmarshal : String → Except String ParsedLine) (response : String)
    (chunkMapping : List (Int × ChunkMetadata)) : List EdgeWithMetadata :=
  ((stripMarkdownCodeFence response).splitOn "\n").filterMap
    (lineEdge? unmarshal chunkMapping)

/-- Whether the response contains at least one parse error. -/
def hasParseError (unmarshal : String → Except String ParsedLine) (response : String)
    (chunkMapping : List (Int × ChunkMetadata)) : Bool :=
  ((stripMarkdownCodeFence response).splitOn "\n").any
    (lineIsError unmarshal chunkMapping)

theorem parseStep_fold_edges (unmarshal : String → Except String ParsedLine)
    (chunkMapping : List (Int × ChunkMetadata)) :
    ∀ (ps : List (Nat × String)) (acc : List EdgeWithMetadata × List String),
      (ps.foldl (parseStep unmarshal chunkMapping) acc).1
        = acc.1 ++ (ps.map Prod.snd).filterMap (lineEdge? unmarshal chunkMapping) := by
  intro ps
  induction ps with
  | nil => intro acc; simp
  | cons p ps ih =>
      intro acc
      show (ps.foldl _ (parseStep unmarshal chunkMapping acc p)).1 = _
      rw [ih]
      show (parseStep unmarshal chunkMapping acc p).1 ++ _
        = acc.1 ++ List.filterMap _ (p.2 :: ps.map Prod.snd)
      rw [List.filterMap_cons]
      cases hout : parseLine unmarshal chunkMapping p.2 with
      | skip => simp [parseStep, hout, lineEdge?]
      | edge e => simp [parseStep, hout, lineEdge?]
      | unmarshalErr msg => simp [parseStep, hout, lineEdge?]
      | invalidChunk k => simp [parseStep, hout, lineEdge?]

theorem parseStep_fold_errors (unmarshal : String → Except String ParsedLine)
    (chunkMapping : List (Int × ChunkMetadata)) :
    ∀ (ps : List (Nat × String)) (acc : List EdgeWithMetadata × List String),
      ((ps.foldl (parseStep unmarshal chunkMapping) acc).2 = [] ↔
        acc.2 = [] ∧ ∀ l ∈ ps.map Prod.snd, lineIsError unmarshal chunkMapping l = false) := by
  intro ps
  induction ps with
  | nil => intro acc; simp
  | cons p ps ih =>
      intro acc
      show ((ps.foldl _ (parseStep unmarshal chunkMapping acc p)).2 = []) ↔ _
      rw [ih]
      cases hout : parseLine unmarshal chunkMapping p.2 with
      | skip =>
          simp only [parseStep, hout, List.map_cons, List.mem_cons]
          constructor
          · rintro ⟨h1, h2⟩
            exact ⟨h1, fun l hl => by
              rcases hl with rfl | hl
              · simp [lineIsError, hout]
              · exact h2 l hl⟩
          · rintro ⟨h1, h2⟩
            exact ⟨h1, fun l hl => h2 l (Or.inr hl)⟩
      | edge e =>
          simp only [parseStep, hout, List.map_cons, List.mem_cons]
          constructor
          · rintro ⟨h1, h2⟩
            exact ⟨h1, fun l hl => by
              rcases hl with rfl | hl
              · simp [lineIsError, hout]
              · exact h2 l hl⟩
          · rintro ⟨h1, h2⟩
            exact ⟨h1, fun l hl => h2 l (Or.inr hl)⟩
      | unmarshalErr msg =>
          simp only [parseStep, hout, List.map_cons, List.mem_cons]
          constructor
          · rintro ⟨h1, -⟩
            exact absurd h1 (by simp)
          · rintro ⟨-, h2⟩
            have := h2 p.2 (Or.inl rfl)
            rw [lineIsError, hout] at this
            cases this
      | invalidChunk k =>
          simp only [parseStep, hout, List.map_cons, List.mem_cons]
          constructor
          · rintro ⟨h1, -⟩
            exact absurd h1 (by simp)
          · rintro ⟨-, h2⟩
            have := h2 p.2 (Or.inl rfl)
            rw [lineIsError, hout] at this
            cases this

end Llm

/-- C8: `ParseJSONL` returns the list of successfully parsed edges with no
error whenever at least one line parses to a valid edge with a known chunk
number (blank, fenced and non-JSON lines are skipped), and returns an error
exactly when no valid edge was parsed and at least one parse error
occurred. -/
theorem C8_parseJSONL_partial_success (unmarshal : String → Except String Llm.ParsedLine)
    (response : String) (chunkMapping : List (Int × Llm.ChunkMetadata)) :
    (Llm.validEdges unmarshal response chunkMapping ≠ [] →
      Llm.ParseJSONL unmarshal response chunkMapping
        = .ok (Llm.validEdges unmarshal response chunkMapping)) ∧
    ((∃ e, Llm.ParseJSONL unmarshal response chunkMapping = .error e) ↔
      Llm.validEdges unmarshal response chunkMapping = []
        ∧ Llm.hasParseError unmarshal response chunkMapping = true) := by
  have hmap : ((Llm.stripMarkdownCodeFence response).splitOn "\n").enum.map Prod.snd
      = (Llm.stripMarkdownCodeFence response).splitOn "\n" := List.enum_map_snd _
  have hedges : (((Llm.stripMarkdownCodeFence response).splitOn "\n").enum.foldl
        (Llm.parseStep unmarshal chunkMapping) ([], [])).1
      = Llm.validEdges unmarshal response chunkMapping := by
    rw [Llm.parseStep_fold_edges, hmap]
    rfl
  have herrs : ((((Llm.stripMarkdownCodeFence response).splitOn "\n").enum.foldl
        (Llm.parseStep unmarshal chunkMapping) ([], [])).2 = []) ↔
      Llm.hasParseError unmarshal response chunkMapping = false := by
    rw [Llm.parseStep_fold_errors, hmap]
    unfold Llm.hasParseError
    rw [List.any_eq_false]
    simp
  constructor
  · intro hne
    unfold Llm.ParseJSONL
    rw [if_pos (by rw [hedges]; exact hne), hedges]
  · constructor
    · rintro ⟨e, he⟩
      simp only [Llm.ParseJSONL] at he
      split at he
      · exact absurd he (by simp)
      · next hne =>
          split at he
          · next herr =>
              refine ⟨by rw [← hedges]; simpa using hne, ?_⟩
              rcases Bool.eq_false_or_eq_true
                (Llm.hasParseError unmarshal response chunkMapping) with ht | hf
              · exact ht
              · exact absurd (herrs.mpr hf) herr
          · exact absurd he (by simp)
    · rintro ⟨hempty, herr⟩
      unfold Llm.ParseJSONL
      rw [if_neg (by rw [hedges]; simpa using hempty),
        if_pos (fun hnil => by rw [herrs.mp hnil] at herr; cases herr)]
      exact ⟨_, rfl⟩

end Chainsaw
